import Mathlib

/-!
Verification of the `configuranator-demo` crate (PART-2025-SW-Exploration-Session).

Shallow embedding conventions:
* Rust `f64` is modelled as `Rat`; all program logic under verification
  (loops, splitting, trimming, control flow) is independent of the scalar
  representation, and the decimal literals exercised by the spec are exact.
* Rust `i32` is modelled as `Int` (no arithmetic is performed on them).
* `std::io` line input is modelled as an explicit script: a `List String` of
  the lines the operator types; each blocking read consumes the head line.
  A loop that would keep reading past the end of the script yields `none`.
* The filesystem is a map from path to contents plus a writability predicate;
  `fs::write` succeeds exactly on writable paths.
* The external TOML codec (`toml::to_string` / `toml::de::from_str`) is a
  boundary collaborator: it is a parameter (`TomlCodec`) rather than code of
  this repository.
-/

/-! ## Data model (src/configuranator-demo/src/lib.rs) -/

/-- A point in 2D space (`Point` in lib.rs, lines 68-72). -/
structure Point where
  x : Rat
  y : Rat
deriving DecidableEq, Repr

/-- Configuration for the YOLO model (`SauronConfig` in lib.rs, lines 23-33). -/
structure SauronConfig where
  model_path : String
  input_size : Int
  dataset_name : String
  fov : Rat × Rat
  resolution : Int × Int
  untagged_image_folder : String
  detection_image_folder : String
  mapping_image_folder : String
deriving DecidableEq, Repr

/-- The `Default` impl for `SauronConfig` (lib.rs, lines 35-48). -/
def SauronConfig.default : SauronConfig where
  model_path := "./sauron/data/yolov8n.onnx"
  input_size := 640
  dataset_name := "COCO"
  fov := (93, 81)
  resolution := (4096, 2160)
  untagged_image_folder := "/feonix-images/untagged"
  detection_image_folder := "/feonix-images/detection"
  mapping_image_folder := "/feonix-images/mapping"

/-- Physical properties of the aircraft (`AircraftProperties` in lib.rs, lines 51-55). -/
structure AircraftProperties where
  turn_radius : Rat
  velocity : Rat
deriving DecidableEq, Repr

/-- Coordinate sets used in competition (`Coordinates` in lib.rs, lines 58-65). -/
structure Coordinates where
  waypoints : List Point
  mapping_area : List Point
  target_area : List Point
  flying_threshold : Rat
  mapping_threshold : Rat
deriving DecidableEq, Repr

/-- Communication settings (`CommConfig` in lib.rs, lines 75-83). -/
structure CommConfig where
  dad_gnc_port : Int
  gnc_dad_port : Int
  dad_sauron_port : Int
  sauron_dad_port : Int
  groundstation_ip : String
  flightcomputer_ip : String
deriving DecidableEq, Repr

/-- Root configuration aggregate (`ManagerConfig` in lib.rs, lines 13-20). -/
structure ManagerConfig where
  test : Bool
  sauron_config : SauronConfig
  aircraft_properties : AircraftProperties
  coordinates : Coordinates
  commconfig : CommConfig
deriving DecidableEq, Repr

/-! ## String primitives

Rust string operations used by the program are re-implemented over `List Char`
by structural recursion so that concrete runs reduce in the kernel. -/

/-- Models Rust `str::split` with a one-character pattern: `splitOnChar sep l`
is the list of separator-free groups; splitting the empty string yields one
empty group, exactly as in Rust. -/
def splitOnChar (sep : Char) : List Char → List (List Char)
  | [] => [[]]
  | c :: rest =>
    let r := splitOnChar sep rest
    if c = sep then [] :: r
    else
      match r with
      | [] => [[c]]
      | g :: gs => (c :: g) :: gs

/-- Models Rust `str::trim`: drop whitespace from both ends. -/
def rustTrim (s : String) : String :=
  String.mk (((s.data.dropWhile fun c => c.isWhitespace).reverse.dropWhile
    fun c => c.isWhitespace).reverse)

/-- Models Rust `str::split(sep).collect::<Vec<_>>()` for a one-character
separator. -/
def rustSplit (sep : Char) (s : String) : List String :=
  (splitOnChar sep s.data).map String.mk

/-- Models Rust `str::ends_with`. -/
def rustEndsWith (s suffix : String) : Bool :=
  suffix.data.isSuffixOf s.data

/-! ## Scalar parsing -/

/-- Numeric value of a list of decimal digit characters (most significant first). -/
def digitsVal (l : List Char) : Nat :=
  l.foldl (fun a c => 10 * a + (c.toNat - 48)) 0

/-- Models Rust `<f64 as FromStr>::from_str` restricted to plain decimal
literals: an optional sign followed by integer digits and an optional
fractional part, at least one digit in total. On this sublanguage Rust parsing
is exact for the values exercised here, and is modelled into `Rat`. Exponent
forms, `inf` and `nan` are outside the modelled sublanguage (they yield
`none`). Any string rejected here with letters or misplaced punctuation is
also rejected by Rust. -/
def parseF64 (s : String) : Option Rat :=
  let (sign, body) :=
    match s.data with
    | '-' :: rest => ((-1 : Rat), rest)
    | '+' :: rest => ((1 : Rat), rest)
    | l => ((1 : Rat), l)
  match splitOnChar '.' body with
  | [ip] =>
    if ip.length != 0 && ip.all Char.isDigit then
      some (sign * (digitsVal ip : Rat))
    else none
  | [ip, fp] =>
    if (ip.length != 0 || fp.length != 0)
        && ip.all Char.isDigit && fp.all Char.isDigit then
      some (sign * ((digitsVal ip : Rat)
        + (digitsVal fp : Rat) / ((10 : Rat) ^ fp.length)))
    else none
  | _ => none

/-- Models Rust `<String as FromStr>::from_str`, which is infallible. -/
def parseString (s : String) : Option String :=
  some s

/-! ## parse_tuple (src/configuranator-demo/src/main.rs, lines 73-93)

`parse_tuple` is generic over `T : FromStr`; the embedding is generic over the
scalar parser. The source splits on a comma, returns the count error unless
the split has exactly two parts, and only then indexes `parts[0]` and
`parts[1]`. The source's length-equals-two guard followed by the two indexed
accesses is rendered as the two-element list pattern: the `[p0, p1]` branch is
taken exactly when the split has length two, and `p0`, `p1` are `parts[0]` and
`parts[1]`. The source count error interpolates the offending input inside
single quotes; the quotes are elided here. -/

def parse_tuple {T : Type} (parse : String → Option T) (s : String) :
    Except String (T × T) :=
  match rustSplit ',' s with
  | [p0, p1] =>
    match parse (rustTrim p0) with
    | none => Except.error "Error parsing first value"
    | some first =>
      match parse (rustTrim p1) with
      | none => Except.error "Error parsing second value"
      | some second => Except.ok (first, second)
  | _ => Except.error ("Invalid tuple: expected two comma-separated values, got " ++ s)

/-! ## Prompt engine (src/configuranator-demo/src/main.rs)

Blocking line input is modelled by an explicit operator script
(`List String`). Each model returns `none` when the script runs out while the
program would still be waiting for input, and otherwise the produced value
together with the unconsumed remainder of the script. -/

/-- Models `prompt_str_input` (main.rs, lines 12-18): read one line and return
it trimmed. -/
def prompt_str_input : List String → Option (String × List String)
  | [] => none
  | line :: rest => some (rustTrim line, rest)

/-- Models `prompt::<T>` (main.rs, lines 21-32), generic over the `FromStr`
parser of `T`: keep reading lines until one parses after trimming. The `Nat`
in the result counts the "Invalid input" error messages printed, one per
rejected line. -/
def prompt {T : Type} (parse : String → Option T) :
    List String → Option (T × List String × Nat)
  | [] => none
  | line :: rest =>
    match parse (rustTrim line) with
    | some v => some (v, rest, 0)
    | none =>
      match prompt parse rest with
      | none => none
      | some (v, r, k) => some (v, r, k + 1)

/-- Models `prompt_tuple::<T>` (main.rs, lines 39-50): keep reading lines until
one satisfies `parse_tuple`, printing the error otherwise. -/
def prompt_tuple {T : Type} (parse : String → Option T) :
    List String → Option ((T × T) × List String)
  | [] => none
  | line :: rest =>
    match parse_tuple parse (rustTrim line) with
    | Except.ok v => some (v, rest)
    | Except.error _ => prompt_tuple parse rest

/-- Models `prompt_point` (main.rs, lines 53-57): prompt for the x and then the
y coordinate, each through `prompt::<f64>`. -/
def prompt_point (inputs : List String) : Option (Point × List String) :=
  match prompt parseF64 inputs with
  | none => none
  | some (x, r1, _) =>
    match prompt parseF64 r1 with
    | none => none
    | some (y, r2, _) => some (⟨x, y⟩, r2)

/-- The loop body of `prompt_area` (main.rs, lines 61-71), with explicit fuel:
push a point, then ask the continuation question; any trimmed answer other
than `"yes"` breaks the loop. Each iteration consumes at least three script
lines, so fuel equal to the script length can never be the reason the loop
fails to finish. -/
def prompt_area_loop (fuel : Nat) (inputs : List String) :
    Option (List Point × List String) :=
  match fuel with
  | 0 => none
  | fuel + 1 =>
    match prompt_point inputs with
    | none => none
    | some (p, rest) =>
      match prompt_str_input rest with
      | none => none
      | some (ans, rest2) =>
        if ans != "yes" then some ([p], rest2)
        else
          match prompt_area_loop fuel rest2 with
          | none => none
          | some (ps, rest3) => some (p :: ps, rest3)

/-- Models `prompt_area` (main.rs, lines 61-71) on an operator script. -/
def prompt_area (inputs : List String) : Option (List Point × List String) :=
  prompt_area_loop inputs.length inputs

/-! ## Interactive Builder fragments (main.rs `main`) -/

/-- The file-name loop of `main` (main.rs, lines 97-102), with explicit fuel:
`prompt::<String>` (infallible, so it consumes exactly one line) repeated
while the entered name does not end with `".toml"`. -/
def prompt_file_name_loop (fuel : Nat) (inputs : List String) :
    Option (String × List String) :=
  match fuel with
  | 0 => none
  | fuel + 1 =>
    match prompt parseString inputs with
    | none => none
    | some (name, rest, _) =>
      if rustEndsWith name ".toml" then some (name, rest)
      else prompt_file_name_loop fuel rest

/-- The file-name prompt of `main` on an operator script. -/
def prompt_file_name (inputs : List String) : Option (String × List String) :=
  prompt_file_name_loop inputs.length inputs

/-- The dataset-name loop of `main` (main.rs, lines 138-144), with explicit
fuel: `prompt::<String>` repeated (`continue`) while the entered string is not
exactly `"COCO"`; `break input` otherwise. -/
def prompt_dataset_name_loop (fuel : Nat) (inputs : List String) :
    Option (String × List String) :=
  match fuel with
  | 0 => none
  | fuel + 1 =>
    match prompt parseString inputs with
    | none => none
    | some (input, rest, _) =>
      if input != "COCO" then prompt_dataset_name_loop fuel rest
      else some (input, rest)

/-- The dataset-name prompt of `main` on an operator script. -/
def prompt_dataset_name (inputs : List String) : Option (String × List String) :=
  prompt_dataset_name_loop inputs.length inputs

/-- The three folder-path prompts of `main` (main.rs, lines 124-132), in
order: untagged, detection, mapping. Each is `prompt::<String>` — the prompt
text offers a default for an empty line, but the entered string is used
as-is. -/
def prompt_folder_paths (inputs : List String) :
    Option ((String × String × String) × List String) :=
  match prompt parseString inputs with
  | none => none
  | some (untagged, r1, _) =>
    match prompt parseString r1 with
    | none => none
    | some (detection, r2, _) =>
      match prompt parseString r2 with
      | none => none
      | some (mapping, r3, _) => some ((untagged, detection, mapping), r3)

/-- Operator script driving `prompt_area` through the given point entries:
each point is two coordinate lines, followed by `"yes"` between points and by
the final answer after the last one. -/
def areaScript : List (String × String) → String → List String
  | [], _ => []
  | [(x, y)], ans => [x, y, ans]
  | (x, y) :: p :: rest, ans => x :: y :: "yes" :: areaScript (p :: rest) ans

/-! ## Document codec boundary and file operations (lib.rs) -/

/-- The filesystem: contents per path, plus which paths accept writes
(modelling `fs::write` failure). -/
structure FileSystem where
  contents : String → Option String
  writable : String → Bool

/-- Models `fs::write`: overwrite the contents at `path`, failing exactly on
unwritable paths. -/
def fsWrite (fs : FileSystem) (path text : String) : Option FileSystem :=
  if fs.writable path then
    some { fs with contents := fun p => if p = path then some text else fs.contents p }
  else none

/-- The external TOML codec (`toml::to_string` / `toml::de::from_str`), a
boundary collaborator of lib.rs, taken as a parameter. -/
structure TomlCodec where
  to_string : ManagerConfig → Except String String
  from_str : String → Except String ManagerConfig

/-- Models `read_config` (lib.rs, lines 86-90): read the file, then decode. -/
def read_config (codec : TomlCodec) (fs : FileSystem) (path : String) :
    Except String ManagerConfig :=
  match fs.contents path with
  | none => Except.error "IOError: could not read file"
  | some content => codec.from_str content

/-- The confirmation line printed by `generate_config` (lib.rs, line 98). -/
def successMessage : String :=
  "Configuration file generation: SUCCESS"

/-- Observable state threaded through `generate_config`: the filesystem and
the operator-facing output lines. -/
structure IOState where
  fs : FileSystem
  stdout : List String

/-- Models `generate_config` (lib.rs, lines 93-100): encode the config, write
it to `file_name`, and only after a successful write print the confirmation.
Either `?` failure returns the error with the state unchanged. -/
def generate_config (codec : TomlCodec) (st : IOState) (file_name : String)
    (config : ManagerConfig) : Except String Unit × IOState :=
  match codec.to_string config with
  | Except.error e => (Except.error e, st)
  | Except.ok doc =>
    match fsWrite st.fs file_name doc with
    | none => (Except.error "IOError: write failed", st)
    | some fs2 =>
      (Except.ok (), { fs := fs2, stdout := st.stdout ++ [successMessage] })

/-! ## Concrete instances used to witness the theorems -/

deriving instance DecidableEq for Except

/-- A concrete configuration, used to instantiate the theorems. -/
def sampleConfig : ManagerConfig where
  test := true
  sauron_config := SauronConfig.default
  aircraft_properties := { turn_radius := 25/2, velocity := 20 }
  coordinates :=
    { waypoints := []
      mapping_area := []
      target_area := [⟨1, 2⟩]
      flying_threshold := 10
      mapping_threshold := 5 }
  commconfig :=
    { dad_gnc_port := 5000
      gnc_dad_port := 5001
      dad_sauron_port := 5002
      sauron_dad_port := 5003
      groundstation_ip := "10.0.0.1"
      flightcomputer_ip := "10.0.0.2" }

/-- A concrete codec that encodes every config to one document and decodes
that document back to `sampleConfig`; it round-trips `sampleConfig`. -/
def sampleCodec : TomlCodec where
  to_string := fun _ => Except.ok "sample-document"
  from_str := fun _ => Except.ok sampleConfig

/-- An empty, everywhere-writable filesystem with no output yet. -/
def initState : IOState where
  fs := { contents := fun _ => none, writable := fun _ => true }
  stdout := []

/-- A filesystem that rejects every write, for exercising the error path. -/
def readOnlyState : IOState where
  fs := { contents := fun _ => none, writable := fun _ => false }
  stdout := []

/-! ## Helper lemmas -/

unseal Rat.mul Rat.add Rat.inv Rat.sub

/-- When the comma split does not have exactly two parts, `parse_tuple`
returns the count error. -/
theorem parse_tuple_of_len_ne {T : Type} (parse : String → Option T) (s : String)
    (h : (rustSplit ',' s).length ≠ 2) :
    parse_tuple parse s =
      Except.error ("Invalid tuple: expected two comma-separated values, got " ++ s) := by
  rcases hs : rustSplit ',' s with _ | ⟨a, _ | ⟨b, _ | ⟨c, cs⟩⟩⟩
  · simp [parse_tuple, hs]
  · simp [parse_tuple, hs]
  · exact absurd (by rw [hs]; rfl) h
  · simp [parse_tuple, hs]

/-- When the comma split is exactly `[a, b]`, `parse_tuple` trims and parses
the two parts in order. -/
theorem parse_tuple_of_pair {T : Type} (parse : String → Option T) (s a b : String)
    (h : rustSplit ',' s = [a, b]) :
    parse_tuple parse s =
      match parse (rustTrim a) with
      | none => Except.error "Error parsing first value"
      | some first =>
        match parse (rustTrim b) with
        | none => Except.error "Error parsing second value"
        | some second => Except.ok (first, second) := by
  simp only [parse_tuple, h]

/-- If the first line already parses after trimming, `prompt` returns it at
once with no error message. -/
theorem prompt_cons_of_parse {T : Type} (parse : String → Option T) (line : String)
    (rest : List String) (v : T) (h : parse (rustTrim line) = some v) :
    prompt parse (line :: rest) = some (v, rest, 0) := by
  simp [prompt, h]

/-- `prompt::<String>` never rejects a line: it consumes exactly one line and
returns it trimmed. -/
theorem prompt_parseString_cons (line : String) (rest : List String) :
    prompt parseString (line :: rest) = some (rustTrim line, rest, 0) := rfl

/-- Characterization of `prompt`: it returns `(v, rest)` after `k` error
messages exactly when the script is a block of `k` unparsable lines, then a
line whose trimmed text parses to `v`, then `rest`. -/
theorem prompt_eq_some_iff {T : Type} (parse : String → Option T)
    (lines rest : List String) (v : T) (k : Nat) :
    prompt parse lines = some (v, rest, k) ↔
      ∃ pre line, lines = pre ++ line :: rest ∧ pre.length = k ∧
        (∀ l ∈ pre, parse (rustTrim l) = none) ∧ parse (rustTrim line) = some v := by
  induction lines generalizing k with
  | nil => simp [prompt]
  | cons hd tl ih =>
    simp only [prompt]
    cases hp : parse (rustTrim hd) with
    | some w =>
      simp only [Option.some.injEq, Prod.mk.injEq]
      constructor
      · rintro ⟨rfl, rfl, rfl⟩
        exact ⟨[], hd, rfl, rfl, by simp, hp⟩
      · rintro ⟨pre, line, heq, hlen, hinv, hline⟩
        cases pre with
        | nil =>
          simp only [List.nil_append, List.cons.injEq] at heq
          obtain ⟨rfl, rfl⟩ := heq
          rw [hp] at hline
          exact ⟨Option.some.inj hline, rfl, by simpa using hlen⟩
        | cons p ps =>
          simp only [List.cons_append, List.cons.injEq] at heq
          obtain ⟨rfl, rfl⟩ := heq
          have hnone := hinv hd (by simp)
          rw [hp] at hnone
          exact absurd hnone (by simp)
    | none =>
      cases hr : prompt parse tl with
      | none =>
        simp only [false_iff, reduceCtorEq]
        rintro ⟨pre, line, heq, hlen, hinv, hline⟩
        cases pre with
        | nil =>
          simp only [List.nil_append, List.cons.injEq] at heq
          obtain ⟨rfl, rfl⟩ := heq
          rw [hline] at hp
          exact absurd hp (by simp)
        | cons p ps =>
          simp only [List.cons_append, List.cons.injEq] at heq
          obtain ⟨rfl, htl⟩ := heq
          have h2 : prompt parse tl = some (v, rest, ps.length) :=
            (ih ps.length).mpr
              ⟨ps, line, htl, rfl, fun l hl => hinv l (List.mem_cons_of_mem _ hl), hline⟩
          rw [hr] at h2
          exact absurd h2 (by simp)
      | some res =>
        obtain ⟨w, r, m⟩ := res
        simp only [Option.some.injEq, Prod.mk.injEq]
        constructor
        · rintro ⟨rfl, rfl, rfl⟩
          obtain ⟨pre, line, heq, hlen, hinv, hline⟩ := (ih m).mp hr
          refine ⟨hd :: pre, line, by simp [heq], by simp [hlen], ?_, hline⟩
          rintro l hl
          rcases List.mem_cons.mp hl with rfl | hl2
          · exact hp
          · exact hinv l hl2
        · rintro ⟨pre, line, heq, hlen, hinv, hline⟩
          cases pre with
          | nil =>
            simp only [List.nil_append, List.cons.injEq] at heq
            obtain ⟨rfl, rfl⟩ := heq
            rw [hline] at hp
            exact absurd hp (by simp)
          | cons p ps =>
            simp only [List.cons_append, List.cons.injEq] at heq
            obtain ⟨rfl, htl⟩ := heq
            have h2 : prompt parse tl = some (v, rest, ps.length) :=
              (ih ps.length).mpr
                ⟨ps, line, htl, rfl, fun l hl => hinv l (List.mem_cons_of_mem _ hl), hline⟩
            rw [hr] at h2
            simp only [Option.some.injEq, Prod.mk.injEq] at h2
            obtain ⟨rfl, rfl, rfl⟩ := h2
            exact ⟨rfl, rfl, by simpa using hlen⟩

/-- When the next two lines parse as reals, `prompt_point` consumes them and
builds the point. -/
theorem prompt_point_cons (x y : String) (rest : List String) (vx vy : Rat)
    (hx : parseF64 (rustTrim x) = some vx) (hy : parseF64 (rustTrim y) = some vy) :
    prompt_point (x :: y :: rest) = some (⟨vx, vy⟩, rest) := by
  simp only [prompt_point, prompt_cons_of_parse parseF64 x (y :: rest) vx hx,
    prompt_cons_of_parse parseF64 y rest vy hy]

/-- The area loop always returns a nonempty list of points: a point is pushed
before the continuation question is ever asked. -/
theorem prompt_area_loop_ne_nil (fuel : Nat) (inputs : List String)
    (res : List Point) (rest : List String)
    (h : prompt_area_loop fuel inputs = some (res, rest)) : res ≠ [] := by
  cases fuel with
  | zero => simp [prompt_area_loop] at h
  | succ f =>
    simp only [prompt_area_loop] at h
    split at h
    · exact absurd h (by simp)
    · split at h
      · exact absurd h (by simp)
      · split at h
        · simp only [Option.some.injEq, Prod.mk.injEq] at h
          obtain ⟨h1, -⟩ := h
          rw [← h1]
          simp
        · split at h
          · exact absurd h (by simp)
          · simp only [Option.some.injEq, Prod.mk.injEq] at h
            obtain ⟨h1, -⟩ := h
            rw [← h1]
            simp

/-- Each scripted point contributes three lines. -/
theorem areaScript_length (pts : List (String × String)) (ans : String) :
    (areaScript pts ans).length = 3 * pts.length := by
  induction pts with
  | nil => rfl
  | cons hd tl ih =>
    obtain ⟨x, y⟩ := hd
    cases tl with
    | nil => rfl
    | cons p rest =>
      simp only [areaScript, List.length_cons, ih]
      omega

/-- Running the area loop on a well-formed script with enough fuel collects
exactly the scripted points, in order, and consumes the whole script. -/
theorem prompt_area_loop_script (pts : List (String × String)) :
    ∀ (vals : List Point) (ans : String) (fuel : Nat),
    List.Forall₂ (fun (sp : String × String) (v : Point) =>
      parseF64 (rustTrim sp.1) = some v.x ∧ parseF64 (rustTrim sp.2) = some v.y) pts vals →
    pts ≠ [] → rustTrim ans ≠ "yes" → pts.length ≤ fuel →
    prompt_area_loop fuel (areaScript pts ans) = some (vals, []) := by
  induction pts with
  | nil =>
    intro vals ans fuel _ hne _ _
    exact absurd rfl hne
  | cons sp sps ih =>
    intro vals ans fuel hrel _ hans hfuel
    obtain ⟨x, y⟩ := sp
    cases hrel with
    | cons hpv htail =>
      rename_i v vs
      obtain ⟨hx, hy⟩ := hpv
      cases fuel with
      | zero => simp at hfuel
      | succ f =>
        cases sps with
        | nil =>
          cases htail
          show prompt_area_loop (f + 1) [x, y, ans] = some ([v], [])
          simp only [prompt_area_loop, prompt_point_cons x y [ans] v.x v.y hx hy,
            prompt_str_input]
          rw [if_pos (bne_iff_ne.mpr hans)]
        | cons sp2 sps2 =>
          show prompt_area_loop (f + 1)
            (x :: y :: "yes" :: areaScript (sp2 :: sps2) ans) = some (v :: vs, [])
          have hrec : prompt_area_loop f (areaScript (sp2 :: sps2) ans) = some (vs, []) :=
            ih vs ans f htail (by simp) hans (by simpa using hfuel)
          simp only [prompt_area_loop,
            prompt_point_cons x y ("yes" :: areaScript (sp2 :: sps2) ans) v.x v.y hx hy,
            prompt_str_input, hrec]
          rw [if_neg (by decide)]

/-- `Forall₂` holds between two replicated lists when it holds between the
replicated elements. -/
theorem forall₂_replicate {α β : Type} (R : α → β → Prop) (a : α) (b : β)
    (h : R a b) : ∀ n, List.Forall₂ R (List.replicate n a) (List.replicate n b) := by
  intro n
  induction n with
  | zero => exact List.Forall₂.nil
  | succ m ih => exact List.Forall₂.cons h ih

/-- The file-name loop skips every rejected name and accepts the first
entered name that ends with ".toml", returning it trimmed. -/
theorem prompt_file_name_loop_script (pre : List String) :
    ∀ (fuel : Nat) (l : String) (rest : List String),
    (∀ p ∈ pre, rustEndsWith (rustTrim p) ".toml" = false) →
    rustEndsWith (rustTrim l) ".toml" = true →
    pre.length < fuel →
    prompt_file_name_loop fuel (pre ++ l :: rest) = some (rustTrim l, rest) := by
  induction pre with
  | nil =>
    intro fuel l rest _ hl hfuel
    cases fuel with
    | zero => simp at hfuel
    | succ f =>
      simp only [List.nil_append, prompt_file_name_loop, prompt_parseString_cons]
      rw [if_pos hl]
  | cons p ps ih =>
    intro fuel l rest hpre hl hfuel
    cases fuel with
    | zero => simp at hfuel
    | succ f =>
      simp only [List.cons_append, prompt_file_name_loop, prompt_parseString_cons]
      rw [if_neg (by simp [hpre p (by simp)])]
      exact ih f l rest (fun q hq => hpre q (by simp [hq])) hl (by simpa using hfuel)

/-- Whatever the script, the file-name loop only ever returns a name that
ends with ".toml". -/
theorem prompt_file_name_loop_sound (fuel : Nat) :
    ∀ (inputs : List String) (name : String) (rest : List String),
    prompt_file_name_loop fuel inputs = some (name, rest) →
    rustEndsWith name ".toml" = true := by
  induction fuel with
  | zero =>
    intro inputs name rest h
    simp [prompt_file_name_loop] at h
  | succ f ih =>
    intro inputs name rest h
    simp only [prompt_file_name_loop] at h
    split at h
    · exact absurd h (by simp)
    · split at h
      · rename_i hcond
        simp only [Option.some.injEq, Prod.mk.injEq] at h
        obtain ⟨h1, -⟩ := h
        rw [← h1]
        exact hcond
      · exact ih _ _ _ h

/-- The dataset-name loop skips every entry other than "COCO" and completes
on the first entry equal to "COCO". -/
theorem prompt_dataset_name_loop_script (pre : List String) :
    ∀ (fuel : Nat) (l : String) (rest : List String),
    (∀ p ∈ pre, rustTrim p ≠ "COCO") →
    rustTrim l = "COCO" →
    pre.length < fuel →
    prompt_dataset_name_loop fuel (pre ++ l :: rest) = some ("COCO", rest) := by
  induction pre with
  | nil =>
    intro fuel l rest _ hl hfuel
    cases fuel with
    | zero => simp at hfuel
    | succ f =>
      simp only [List.nil_append, prompt_dataset_name_loop, prompt_parseString_cons]
      rw [hl, if_neg (by simp)]
  | cons p ps ih =>
    intro fuel l rest hpre hl hfuel
    cases fuel with
    | zero => simp at hfuel
    | succ f =>
      simp only [List.cons_append, prompt_dataset_name_loop, prompt_parseString_cons]
      rw [if_pos (bne_iff_ne.mpr (hpre p (by simp)))]
      exact ih f l rest (fun q hq => hpre q (by simp [hq])) hl (by simpa using hfuel)

/-- Whatever the script, the dataset-name loop only ever returns "COCO". -/
theorem prompt_dataset_name_loop_sound (fuel : Nat) :
    ∀ (inputs : List String) (v : String) (rest : List String),
    prompt_dataset_name_loop fuel inputs = some (v, rest) → v = "COCO" := by
  induction fuel with
  | zero =>
    intro inputs v rest h
    simp [prompt_dataset_name_loop] at h
  | succ f ih =>
    intro inputs v rest h
    simp only [prompt_dataset_name_loop] at h
    split at h
    · exact absurd h (by simp)
    · split at h
      · exact ih _ _ _ h
      · rename_i hcond
        simp only [Option.some.injEq, Prod.mk.injEq] at h
        obtain ⟨h1, -⟩ := h
        rw [← h1]
        simpa using hcond

/-! ## Claims -/

/-- C1: for every `ManagerConfig` instance, saving it with `generate_config`
and then loading the same path with `read_config` yields the same
configuration, given that the external TOML codec round-trips the instance
(the codec is a boundary collaborator; the spec stipulates its documents are
round-trippable) and the path is writable. -/
theorem generate_config_read_config_roundtrip (codec : TomlCodec) (st : IOState)
    (path : String) (c : ManagerConfig) (doc : String)
    (henc : codec.to_string c = Except.ok doc)
    (hdec : codec.from_str doc = Except.ok c)
    (hw : st.fs.writable path = true) :
    read_config codec (generate_config codec st path c).2.fs path = Except.ok c := by
  simp [generate_config, henc, fsWrite, hw, read_config, hdec]

theorem generate_config_read_config_roundtrip_witness :
    read_config sampleCodec
      (generate_config sampleCodec initState "test_config.toml" sampleConfig).2.fs
      "test_config.toml" = Except.ok sampleConfig :=
  generate_config_read_config_roundtrip sampleCodec initState "test_config.toml"
    sampleConfig "sample-document" rfl rfl rfl

/-- C2 (counterexample): there is no operator input script under which
`prompt_area` returns an empty sequence of points — in particular, the
operator cannot decline before the first point, because the point prompt runs
before the first continuation question. -/
theorem prompt_area_no_zero_points :
    ¬ ∃ (inputs rest : List String), prompt_area inputs = some ([], rest) := by
  rintro ⟨inputs, rest, h⟩
  exact prompt_area_loop_ne_nil inputs.length inputs [] rest h rfl

/-- C2 (amended): the area prompt imposes no maximum on the number of points
collected — every positive count is reachable — but the minimum is one point:
any returned sequence is nonempty, since the continuation question is only
asked after a point has been entered. -/
theorem prompt_area_min_one_no_max :
    (∀ (inputs rest : List String) (res : List Point),
      prompt_area inputs = some (res, rest) → 1 ≤ res.length) ∧
    (∀ n : Nat, 1 ≤ n → ∃ (inputs : List String) (res : List Point),
      prompt_area inputs = some (res, []) ∧ res.length = n) := by
  constructor
  · intro inputs rest res h
    have hne := prompt_area_loop_ne_nil inputs.length inputs res rest h
    cases res with
    | nil => exact absurd rfl hne
    | cons a l => simp
  · intro n hn
    refine ⟨areaScript (List.replicate n ("1", "2")) "no",
      List.replicate n ⟨1, 2⟩, ?_, by simp⟩
    rw [prompt_area]
    apply prompt_area_loop_script
    · exact forall₂_replicate _ ("1", "2") (⟨1, 2⟩ : Point) ⟨by decide, by decide⟩ n
    · cases n with
      | zero => omega
      | succ m => simp
    · decide
    · rw [areaScript_length]
      simp only [List.length_replicate]
      omega

theorem prompt_area_min_one_no_max_witness :
    1 ≤ [(⟨1, 2⟩ : Point)].length :=
  prompt_area_min_one_no_max.1 ["1", "2", "no"] [] [⟨1, 2⟩] (by decide)

/-- C3 (code bug): each of the three folder-path prompts accepts an empty
line as the empty string — the documented default from `SauronConfig.default`
is not substituted, although the prompt text promises "Leave empty for
default". -/
theorem folder_prompt_empty_keeps_empty_string :
    prompt_folder_paths ["", "", ""] = some (("", "", ""), []) ∧
    SauronConfig.default.untagged_image_folder = "/feonix-images/untagged" ∧
    SauronConfig.default.detection_image_folder = "/feonix-images/detection" ∧
    SauronConfig.default.mapping_image_folder = "/feonix-images/mapping" ∧
    ("" : String) ≠ SauronConfig.default.untagged_image_folder ∧
    ("" : String) ≠ SauronConfig.default.detection_image_folder ∧
    ("" : String) ≠ SauronConfig.default.mapping_image_folder :=
  ⟨rfl, rfl, rfl, rfl, by decide, by decide, by decide⟩

/-- C4: `parse_tuple` succeeds exactly when the comma split has exactly two
segments whose trimmed text both parse; concretely it parses "3.0, 4.0" to
(3.0, 4.0), rejects "1,2,3" with the segment-count error, and rejects "a,2"
because the first segment does not parse. -/
theorem parse_tuple_spec :
    (∀ (T : Type) (parse : String → Option T) (s : String),
      (∃ v, parse_tuple parse s = Except.ok v) ↔
        ∃ a b, rustSplit ',' s = [a, b] ∧
          (parse (rustTrim a)).isSome = true ∧ (parse (rustTrim b)).isSome = true) ∧
    parse_tuple parseF64 "3.0, 4.0" = Except.ok (3, 4) ∧
    parse_tuple parseF64 "1,2,3" =
      Except.error "Invalid tuple: expected two comma-separated values, got 1,2,3" ∧
    parse_tuple parseF64 "a,2" = Except.error "Error parsing first value" := by
  refine ⟨?_, by decide, by decide, by decide⟩
  intro T parse s
  constructor
  · rintro ⟨v, hv⟩
    rcases hs : rustSplit ',' s with _ | ⟨a, _ | ⟨b, _ | ⟨c, cs⟩⟩⟩
    · rw [parse_tuple_of_len_ne parse s (by rw [hs]; simp)] at hv
      exact absurd hv (by simp)
    · rw [parse_tuple_of_len_ne parse s (by rw [hs]; simp)] at hv
      exact absurd hv (by simp)
    · rw [parse_tuple_of_pair parse s a b hs] at hv
      refine ⟨a, b, rfl, ?_, ?_⟩
      · cases hpa : parse (rustTrim a) with
        | none => rw [hpa] at hv; exact absurd hv (by simp)
        | some x => simp [hpa]
      · cases hpa : parse (rustTrim a) with
        | none => rw [hpa] at hv; exact absurd hv (by simp)
        | some x =>
          rw [hpa] at hv
          cases hpb : parse (rustTrim b) with
          | none => rw [hpb] at hv; exact absurd hv (by simp)
          | some y => simp [hpb]
    · rw [parse_tuple_of_len_ne parse s (by rw [hs]; simp)] at hv
      exact absurd hv (by simp)
  · rintro ⟨a, b, hs, hpa, hpb⟩
    obtain ⟨x, hx⟩ := Option.isSome_iff_exists.mp hpa
    obtain ⟨y, hy⟩ := Option.isSome_iff_exists.mp hpb
    rw [parse_tuple_of_pair parse s a b hs, hx, hy]
    exact ⟨(x, y), rfl⟩

theorem parse_tuple_spec_witness :
    ∃ v, parse_tuple parseF64 "7, 8" = Except.ok v :=
  (parse_tuple_spec.1 Rat parseF64 "7, 8").mpr
    ⟨"7", " 8", by decide, by decide, by decide⟩

/-- C5: `prompt` returns precisely the parsed value of the first script line
whose trimmed text parses; each earlier line fails to parse and produces one
error message, and the only way `prompt` returns is through a successful
parse. -/
theorem prompt_returns_first_valid_input {T : Type} (parse : String → Option T)
    (lines rest : List String) (v : T) (k : Nat) :
    prompt parse lines = some (v, rest, k) ↔
      ∃ pre line, lines = pre ++ line :: rest ∧ pre.length = k ∧
        (∀ l ∈ pre, parse (rustTrim l) = none) ∧ parse (rustTrim line) = some v :=
  prompt_eq_some_iff parse lines rest v k

theorem prompt_returns_first_valid_input_witness :
    prompt parseF64 ["abc", "2.5", "xyz"] = some ((5/2 : Rat), ["xyz"], 1) :=
  (prompt_returns_first_valid_input parseF64 ["abc", "2.5", "xyz"] ["xyz"] (5/2) 1).mpr
    ⟨["abc"], "2.5", rfl, rfl, by decide, by decide⟩

/-- C6: when the operator enters N points (each a pair of lines parsing as
reals), answers "yes" after each point but the last, and answers anything
whose trimmed text is not the exact token "yes" after the last, `prompt_area`
returns exactly those N points in entry order. -/
theorem prompt_area_collects_scripted_points (pts : List (String × String))
    (vals : List Point) (ans : String)
    (hrel : List.Forall₂ (fun (sp : String × String) (v : Point) =>
      parseF64 (rustTrim sp.1) = some v.x ∧ parseF64 (rustTrim sp.2) = some v.y) pts vals)
    (hne : pts ≠ [])
    (hans : rustTrim ans ≠ "yes") :
    prompt_area (areaScript pts ans) = some (vals, []) := by
  rw [prompt_area]
  exact prompt_area_loop_script pts vals ans (areaScript pts ans).length hrel hne hans
    (by rw [areaScript_length]; omega)

theorem prompt_area_collects_scripted_points_witness :
    prompt_area (areaScript [("0", "1"), ("2.5", "3")] "done") =
      some ([⟨0, 1⟩, ⟨5/2, 3⟩], []) :=
  prompt_area_collects_scripted_points [("0", "1"), ("2.5", "3")]
    [⟨0, 1⟩, ⟨5/2, 3⟩] "done"
    (List.Forall₂.cons ⟨by decide, by decide⟩
      (List.Forall₂.cons ⟨by decide, by decide⟩ List.Forall₂.nil))
    (by simp) (by decide)

/-- C7: the dataset-name loop repeats on every entered string other than
exactly "COCO" (the comparison is case-sensitive), and entering exactly
"COCO" completes the loop on that entry, returning "COCO"; moreover the loop
can only ever return "COCO". -/
theorem dataset_name_gate_spec :
    (∀ (pre : List String) (l : String) (rest : List String),
      (∀ p ∈ pre, rustTrim p ≠ "COCO") → rustTrim l = "COCO" →
      prompt_dataset_name (pre ++ l :: rest) = some ("COCO", rest)) ∧
    (∀ (inputs : List String) (v : String) (rest : List String),
      prompt_dataset_name inputs = some (v, rest) → v = "COCO") := by
  constructor
  · intro pre l rest hpre hl
    rw [prompt_dataset_name]
    exact prompt_dataset_name_loop_script pre (pre ++ l :: rest).length l rest hpre hl
      (by simp)
  · intro inputs v rest h
    exact prompt_dataset_name_loop_sound inputs.length inputs v rest h

theorem dataset_name_gate_spec_witness :
    prompt_dataset_name ["coco", "COCO"] = some ("COCO", []) :=
  dataset_name_gate_spec.1 ["coco"] "COCO" [] (by decide) (by decide)

/-- C8: the file-name loop rejects and re-prompts every entered name that
does not end with ".toml" and accepts the first entered name that does,
returning it unchanged (as trimmed by the prompt engine); moreover the loop
only ever returns a name ending with ".toml". -/
theorem file_name_suffix_gate_spec :
    (∀ (pre : List String) (l : String) (rest : List String),
      (∀ p ∈ pre, rustEndsWith (rustTrim p) ".toml" = false) →
      rustEndsWith (rustTrim l) ".toml" = true →
      prompt_file_name (pre ++ l :: rest) = some (rustTrim l, rest)) ∧
    (∀ (inputs : List String) (name : String) (rest : List String),
      prompt_file_name inputs = some (name, rest) →
      rustEndsWith name ".toml" = true) := by
  constructor
  · intro pre l rest hpre hl
    rw [prompt_file_name]
    exact prompt_file_name_loop_script pre (pre ++ l :: rest).length l rest hpre hl
      (by simp)
  · intro inputs name rest h
    exact prompt_file_name_loop_sound inputs.length inputs name rest h

theorem file_name_suffix_gate_spec_witness :
    prompt_file_name ["cfg", "cfg.toml"] = some ("cfg.toml", []) :=
  file_name_suffix_gate_spec.1 ["cfg"] "cfg.toml" [] (by decide) (by decide)

/-- C9: `generate_config` returns unit exactly when encoding and the write
both succeed and an error otherwise, and the success confirmation is printed
if and only if the write succeeded: no confirmation is emitted on any error
path. -/
theorem generate_config_error_and_confirmation (codec : TomlCodec) (st : IOState)
    (file_name : String) (c : ManagerConfig) :
    ((generate_config codec st file_name c).1 = Except.ok () ↔
      (∃ doc, codec.to_string c = Except.ok doc) ∧
        st.fs.writable file_name = true) ∧
    ((generate_config codec st file_name c).2.stdout =
        st.stdout ++ [successMessage] ↔
      (generate_config codec st file_name c).1 = Except.ok ()) ∧
    ((generate_config codec st file_name c).1 ≠ Except.ok () →
      (generate_config codec st file_name c).2.stdout = st.stdout) := by
  cases henc : codec.to_string c with
  | error e => simp [generate_config, henc]
  | ok doc =>
    cases hw : st.fs.writable file_name with
    | false => simp [generate_config, henc, fsWrite, hw]
    | true => simp [generate_config, henc, fsWrite, hw]

theorem generate_config_error_and_confirmation_witness :
    (generate_config sampleCodec initState "a.toml" sampleConfig).1 = Except.ok () :=
  (generate_config_error_and_confirmation sampleCodec initState "a.toml"
    sampleConfig).1.mpr ⟨⟨"sample-document", rfl⟩, rfl⟩

/-- C10: `parse_tuple` is total — every input string, including the empty
string and strings with no comma or several commas, yields either a parsed
pair or a descriptive error; every input whose comma split does not have
exactly two segments yields the segment-count error (segments are only
accessed in the two-segment branch). -/
theorem parse_tuple_total :
    (∀ (T : Type) (parse : String → Option T) (s : String),
      (∃ v, parse_tuple parse s = Except.ok v) ∨
      (∃ e, parse_tuple parse s = Except.error e)) ∧
    (∀ (T : Type) (parse : String → Option T) (s : String),
      (rustSplit ',' s).length ≠ 2 →
      parse_tuple parse s =
        Except.error ("Invalid tuple: expected two comma-separated values, got " ++ s)) ∧
    parse_tuple parseF64 "" =
      Except.error "Invalid tuple: expected two comma-separated values, got " ∧
    parse_tuple parseF64 "12" =
      Except.error "Invalid tuple: expected two comma-separated values, got 12" ∧
    parse_tuple parseF64 "1,2,3" =
      Except.error "Invalid tuple: expected two comma-separated values, got 1,2,3" := by
  refine ⟨?_, fun T parse s h => parse_tuple_of_len_ne parse s h, by decide, by decide,
    by decide⟩
  intro T parse s
  cases h : parse_tuple parse s with
  | ok v => exact Or.inl ⟨v, rfl⟩
  | error e => exact Or.inr ⟨e, rfl⟩

theorem parse_tuple_total_witness :
    parse_tuple parseF64 "1;2" =
      Except.error "Invalid tuple: expected two comma-separated values, got 1;2" :=
  parse_tuple_total.2.1 Rat parseF64 "1;2" (by decide)
